import Mathlib

/-!
Shallow embedding of the AVR stack-frame management subsystem
(lib/Target/AVR/AVRFrameLowering.cpp) and proofs about its behaviour.

Instruction streams are modelled as lists of machine instructions; every
`BuildMI(MBB, It, ...)` insertion before an iterator becomes a positional
list insertion, and fatal assertions become `Option.none` results.
-/

set_option maxHeartbeats 1000000

namespace AVRFrame

/-- AVR machine registers as referenced by the frame-lowering code.
`gpr n` is a generic single-byte general-purpose register, `pr hi lo`
a generic 16-bit register pair, `virt n` a virtual register created by
`MachineRegisterInfo::createVirtualRegister`. -/
inductive Reg where
  | SP
  | SREG
  | R0
  | R1R0
  | R29R28
  | R31R30
  | gpr (n : Nat)
  | pr (hi lo : Nat)
  | virt (n : Nat)
deriving DecidableEq, Repr

/-- Byte width of the minimal physical register class of a register
(`TRI->getMinimalPhysRegClass(Reg)->getSize()`). -/
def Reg.size : Reg → Nat
  | .SP => 2
  | .SREG => 1
  | .R0 => 1
  | .R1R0 => 2
  | .R29R28 => 2
  | .R31R30 => 2
  | .gpr _ => 1
  | .pr _ _ => 2
  | .virt _ => 2

/-- High-byte sub-register of a register pair (`TRI->getSubReg(R, AVR::sub_hi)`).
The register-info tables live outside this source file; the values follow the
AVR register definitions (pair RnRm has high byte Rn). -/
def Reg.subHi : Reg → Reg
  | .R1R0 => .gpr 1
  | .R29R28 => .gpr 29
  | .R31R30 => .gpr 31
  | .pr hi _ => .gpr hi
  | r => r

/-- Low-byte sub-register of a register pair (`TRI->getSubReg(R, AVR::sub_lo)`). -/
def Reg.subLo : Reg → Reg
  | .R1R0 => .R0
  | .R29R28 => .gpr 28
  | .R31R30 => .gpr 30
  | .pr _ lo => .gpr lo
  | r => r

/-- The AVR opcodes referenced by the frame-lowering code, plus a return, a
branch and a call opcode and a generic opcode so arbitrary instruction
streams can be represented. -/
inductive Opcode where
  | BSETs
  | PUSHRr
  | PUSHWRr
  | POPRd
  | POPWRd
  | INRdA
  | OUTARr
  | SPREAD
  | SPWRITE
  | ADIWRdK
  | SBIWRdK
  | SUBIWRdK
  | COPY
  | STDSPQRr
  | STDWSPQRr
  | STDPtrQRr
  | STDWPtrQRr
  | LDDRdPtrQ
  | LDDWRdPtrQ
  | RET
  | RETI
  | RJMPk
  | CALLk
  | ADJCALLSTACKDOWN
  | ADJCALLSTACKUP
  | generic (n : Nat)
deriving DecidableEq, Repr

/-- `MachineInstr::getDesc().isReturn()`. -/
def Opcode.isReturn : Opcode → Bool
  | .RET => true
  | .RETI => true
  | _ => false

/-- `MachineInstr::isCall()`. -/
def Opcode.isCall : Opcode → Bool
  | .CALLk => true
  | _ => false

/-- `MachineInstr::isTerminator()`: returns and branches terminate a block. -/
def Opcode.isTerminator : Opcode → Bool
  | .RET => true
  | .RETI => true
  | .RJMPk => true
  | _ => false

/-- A machine operand: a register operand with def/kill/dead state, an
immediate, or a frame index. -/
inductive Operand where
  | reg (r : Reg) (isDef : Bool) (isKill : Bool) (isDead : Bool)
  | imm (v : Int)
  | fi (idx : Int)
deriving DecidableEq, Repr

/-- A use-operand of a register, not killed. -/
def useReg (r : Reg) : Operand := .reg r false false false

/-- A use-operand of a register, killed (`RegState::Kill`). -/
def useKill (r : Reg) : Operand := .reg r false true false

/-- A def-operand of a register. -/
def defReg (r : Reg) : Operand := .reg r true false false

/-- A machine instruction: opcode, operand list, the `FrameSetup` MI flag and
the debug-value marker used by `getLastNonDebugInstr`. -/
structure MachineInstr where
  opcode : Opcode
  operands : List Operand
  frameSetup : Bool
  isDebugValue : Bool
deriving DecidableEq, Repr

/-- Build an instruction with no machine-instruction flags. -/
def mkI (opc : Opcode) (ops : List Operand) : MachineInstr :=
  ⟨opc, ops, false, false⟩

/-- Build an instruction carrying the `MachineInstr::FrameSetup` flag
(`setMIFlag(MachineInstr::FrameSetup)`). -/
def mkFS (opc : Opcode) (ops : List Operand) : MachineInstr :=
  ⟨opc, ops, true, false⟩

/-- `MI->getOperand(i).setIsDead()`. -/
def MachineInstr.setOperandDead (mi : MachineInstr) (i : Nat) : MachineInstr :=
  let o2 := match mi.operands.getD i (.imm 0) with
    | .reg r d k _ => .reg r d k true
    | o => o
  { mi with operands := mi.operands.set i o2 }

/-- `MI.getOperand(i).getReg()`, `none` when operand `i` is not a register. -/
def MachineInstr.operandReg (mi : MachineInstr) (i : Nat) : Option Reg :=
  match mi.operands.getD i (.imm 0) with
  | .reg r _ _ _ => some r
  | _ => none

/-- `MI.getOperand(i).isKill()`. -/
def MachineInstr.operandIsKill (mi : MachineInstr) (i : Nat) : Bool :=
  match mi.operands.getD i (.imm 0) with
  | .reg _ _ k _ => k
  | _ => false

/-- `MI.getOperand(i).getImm()`, `none` when operand `i` is not an immediate. -/
def MachineInstr.operandImm (mi : MachineInstr) (i : Nat) : Option Int :=
  match mi.operands.getD i (.imm 0) with
  | .imm v => some v
  | _ => none

/-- `MI.getOperand(i).setReg(r)`. -/
def MachineInstr.setOperandReg (mi : MachineInstr) (i : Nat) (r : Reg) : MachineInstr :=
  let o2 := match mi.operands.getD i (.imm 0) with
    | .reg _ d k dd => .reg r d k dd
    | o => o
  { mi with operands := mi.operands.set i o2 }

/-- A machine basic block: its live-in register list and instruction list. -/
structure MachineBasicBlock where
  liveIns : List Reg
  instrs : List MachineInstr
deriving DecidableEq, Repr

/-- The calling conventions the code distinguishes: normal C, interrupt
handler (`AVR_INTR`) and signal handler (`AVR_SIGNAL`). -/
inductive CallingConv where
  | C
  | AVR_INTR
  | AVR_SIGNAL
deriving DecidableEq, Repr

/-- The slice of `MachineFrameInfo` consumed by the frame-lowering code.
Fixed objects (incoming arguments, negative frame indices) and non-fixed
objects (locals, frame indices `0 .. e-1`) are kept as separate size lists. -/
structure MachineFrameInfo where
  stackSize : Nat
  maxCallFrameSize : Nat
  hasVarSizedObjects : Bool
  fixedObjectSizes : List Nat
  objectSizes : List Nat
deriving DecidableEq, Repr

/-- `MFI->getNumFixedObjects()`. -/
def MachineFrameInfo.numFixedObjects (mfi : MachineFrameInfo) : Nat :=
  mfi.fixedObjectSizes.length

/-- `MFI->getNumObjects()`. -/
def MachineFrameInfo.numObjects (mfi : MachineFrameInfo) : Nat :=
  mfi.fixedObjectSizes.length + mfi.objectSizes.length

/-- `MFI->getObjectIndexEnd()`: one past the last non-fixed frame index. -/
def MachineFrameInfo.objectIndexEnd (mfi : MachineFrameInfo) : Nat :=
  mfi.objectSizes.length

/-- `MFI->getObjectSize(i)` for a non-fixed index `i ≥ 0`. -/
def MachineFrameInfo.getObjectSize (mfi : MachineFrameInfo) (i : Nat) : Nat :=
  mfi.objectSizes.getD i 0

/-- `MFI->isFixedObjectIndex(idx)`: fixed objects occupy the negative frame
indices `-numFixedObjects .. -1`. -/
def MachineFrameInfo.isFixedObjectIndex (mfi : MachineFrameInfo) (idx : Int) : Bool :=
  decide (idx < 0) && decide (-(Int.ofNat mfi.numFixedObjects) ≤ idx)

/-- `AVRMachineFunctionInfo`: the per-function frame metadata record. -/
structure AVRMachineFunctionInfo where
  hasSpills : Bool
  hasAllocas : Bool
  hasStackArgs : Bool
  calleeSavedFrameSize : Nat
deriving DecidableEq, Repr

/-- The per-function state consumed by the frame-lowering entry points. -/
structure MachineFunction where
  callConv : CallingConv
  frameInfo : MachineFrameInfo
  funcInfo : AVRMachineFunctionInfo
deriving DecidableEq, Repr

/-- `isUInt<6>` on an unsigned value. -/
def isUInt6 (n : Nat) : Bool := decide (n < 64)

/-- `isUInt<6>` applied to a C++ `int`: the implicit conversion to `uint64_t`
maps negative values far above 63. -/
def isUInt6Int (v : Int) : Bool := decide (0 ≤ v) && decide (v < 64)

/-- 32-bit unsigned subtraction, as in
`unsigned FrameSize = MFI->getStackSize() - AFI->getCalleeSavedFrameSize()`. -/
def usub32 (a b : Nat) : Nat := (a % 2 ^ 32 + (2 ^ 32 - b % 2 ^ 32)) % 2 ^ 32

/-- 32-bit unsigned negation, as in `FrameSize = -FrameSize`. -/
def neg32 (n : Nat) : Nat := (2 ^ 32 - n % 2 ^ 32) % 2 ^ 32

/-- The state installed by the `AVRFrameLowering` constructor:
`TargetFrameLowering(TargetFrameLowering::StackGrowsDown, 1, -2)`. -/
structure AVRFrameLowering where
  stackGrowsDown : Bool
  stackAlignment : Nat
  localAreaOffset : Int
deriving DecidableEq, Repr

/-- `AVRFrameLowering::AVRFrameLowering()`. -/
def mkAVRFrameLowering : AVRFrameLowering := ⟨true, 1, -2⟩

/-- `AVRFrameLowering::canSimplifyCallFramePseudos`. -/
def canSimplifyCallFramePseudos (_ : MachineFunction) : Bool := true

/-- `AVRFrameLowering::hasFP`. -/
def hasFP (MF : MachineFunction) : Bool :=
  MF.funcInfo.hasSpills || MF.funcInfo.hasAllocas || MF.funcInfo.hasStackArgs

/-- `AVRFrameLowering::hasReservedCallFrame`. -/
def hasReservedCallFrame (MF : MachineFunction) : Bool :=
  hasFP MF && !MF.frameInfo.hasVarSizedObjects
    && isUInt6 MF.frameInfo.maxCallFrameSize

/-- The interrupt re-enable emitted at the head of interrupt-handler
prologues: `BSETs 0x07` with the FrameSetup flag. -/
def interruptEnable : MachineInstr := mkFS .BSETs [.imm 7]

/-- `PUSHWRr R1R0<kill>` emitted for handler prologues. -/
def pushZeroPair : MachineInstr := mkFS .PUSHWRr [useKill .R1R0]

/-- `INRdA R0, 0x3f`: read SREG into the scratch register R0. -/
def readSREG : MachineInstr := mkFS .INRdA [defReg .R0, .imm 0x3f]

/-- `PUSHRr R0<kill>`: push the scratch register holding SREG. -/
def pushSREGScratch : MachineInstr := mkFS .PUSHRr [useKill .R0]

/-- The handler-convention save code emitted at the start of the prologue:
interrupt re-enable for `AVR_INTR`, then the zero-register-pair push, the
SREG read and the SREG push for both handler conventions. -/
def handlerPrologue (cc : CallingConv) : List MachineInstr :=
  (if cc = .AVR_INTR then [interruptEnable] else []) ++
    (if cc = .AVR_INTR || cc = .AVR_SIGNAL then
      [pushZeroPair, readSREG, pushSREGScratch]
    else [])

/-- The skip loop over the already-emitted callee-saved push instructions:
splits a block into its maximal `PUSHRr`/`PUSHWRr` prefix and the rest. -/
def spanPushes : List MachineInstr → List MachineInstr × List MachineInstr
  | [] => ([], [])
  | i :: rest =>
    if i.opcode = .PUSHRr || i.opcode = .PUSHWRr then
      let p := spanPushes rest
      (i :: p.1, p.2)
    else ([], i :: rest)

/-- `SPREAD R29R28, SP` materializing the frame pointer in the prologue. -/
def spreadFP : MachineInstr := mkFS .SPREAD [defReg .R29R28, useReg .SP]

/-- The prologue frame-size adjustment: `SBIWRdK` when the size fits in six
unsigned bits, else `SUBIWRdK`, with the implicit SREG def marked dead. -/
def prologueAdjust (frameSize : Nat) : MachineInstr :=
  let opc := if isUInt6 frameSize then Opcode.SBIWRdK else Opcode.SUBIWRdK
  (mkFS opc [defReg .R29R28, useKill .R29R28, .imm (Int.ofNat frameSize),
    defReg .SREG]).setOperandDead 3

/-- `SPWRITE SP, R29R28` writing the adjusted frame pointer back in the
prologue (the source register is not killed there). -/
def prologueSPWrite : MachineInstr := mkFS .SPWRITE [defReg .SP, useReg .R29R28]

/-- `AVRFrameLowering::emitPrologue`, acting on the function's block list
whose head is the entry block. Insertions before the running iterator become
list concatenations: handler code lands before the original block contents,
the frame-pointer code after the callee-saved push prefix. -/
def emitPrologue (MF : MachineFunction) (blocks : List MachineBasicBlock) :
    List MachineBasicBlock :=
  match blocks with
  | [] => []
  | entry :: rest =>
    let pre := handlerPrologue MF.callConv
    if !hasFP MF then
      { entry with instrs := pre ++ entry.instrs } :: rest
    else
      let frameSize := usub32 MF.frameInfo.stackSize
        MF.funcInfo.calleeSavedFrameSize
      let sp := spanPushes entry.instrs
      let fpCode := [spreadFP] ++
        (if frameSize = 0 then []
         else [prologueAdjust frameSize, prologueSPWrite])
      let rest2 := rest.map fun b =>
        { b with liveIns := b.liveIns ++ [Reg.R29R28] }
      { entry with instrs := pre ++ sp.1 ++ fpCode ++ sp.2 } :: rest2

/-- `MBB.getLastNonDebugInstr()`, splitting the block into the instructions
before the last non-debug instruction, that instruction, and the (all-debug)
tail after it; `none` when no non-debug instruction exists. -/
def splitLastNonDebug :
    List MachineInstr → Option (List MachineInstr × MachineInstr × List MachineInstr)
  | [] => none
  | i :: rest =>
    match splitLastNonDebug rest with
    | some (a, m, b) => some (i :: a, m, b)
    | none => if i.isDebugValue then none else some ([], i, rest)

/-- The epilogue's backward skip condition: callee-saved pops and
terminators are stepped over when searching for the insertion point. -/
def isEpilogueSkip (i : MachineInstr) : Bool :=
  i.opcode = .POPRd || i.opcode = .POPWRd || i.opcode.isTerminator

/-- The epilogue's backward scan from the return instruction: splits the
instructions before the return into a prefix and the maximal all-skippable
suffix, in front of which the frame restore is inserted. -/
def backSkip : List MachineInstr → List MachineInstr × List MachineInstr
  | [] => ([], [])
  | i :: rest =>
    let p := backSkip rest
    if p.1.isEmpty && isEpilogueSkip i then ([], i :: p.2)
    else (i :: p.1, p.2)

/-- `POPRd R0` restoring the SREG scratch register in handler epilogues. -/
def popSREGScratch : MachineInstr := mkI .POPRd [defReg .R0]

/-- `OUTARr 0x3f, R0<kill>` writing the restored value back to SREG. -/
def writeSREG : MachineInstr := mkI .OUTARr [.imm 0x3f, useKill .R0]

/-- `POPWRd R1R0` restoring the zero-register pair in handler epilogues. -/
def popZeroPair : MachineInstr := mkI .POPWRd [defReg .R1R0]

/-- The epilogue frame restore: `ADIWRdK FrameSize` when the size fits in six
unsigned bits, else `SUBIWRdK` with the 32-bit negated size; the implicit
SREG def is marked dead. -/
def epilogueAdjust (frameSize : Nat) : MachineInstr :=
  let fits := isUInt6 frameSize
  let opc := if fits then Opcode.ADIWRdK else Opcode.SUBIWRdK
  let amt := if fits then frameSize else neg32 frameSize
  (mkI opc [defReg .R29R28, useKill .R29R28, .imm (Int.ofNat amt),
    defReg .SREG]).setOperandDead 3

/-- `SPWRITE SP, R29R28<kill>` writing the restored frame pointer back in the
epilogue. -/
def epilogueSPWrite : MachineInstr := mkI .SPWRITE [defReg .SP, useKill .R29R28]

/-- `AVRFrameLowering::emitEpilogue` on one returning block. `none` models
the fatal assertion that the last non-debug instruction must be a return
(and the undefined dereference when the block has no such instruction). -/
def emitEpilogue (MF : MachineFunction) (bb : MachineBasicBlock) :
    Option MachineBasicBlock :=
  let isHandler := MF.callConv = .AVR_INTR || MF.callConv = .AVR_SIGNAL
  if !hasFP MF && !isHandler then
    some bb
  else
    match splitLastNonDebug bb.instrs with
    | none => none
    | some (pre, ret, post) =>
      if !ret.opcode.isReturn then none
      else
        let frameSize := usub32 MF.frameInfo.stackSize
          MF.funcInfo.calleeSavedFrameSize
        let handlerCode :=
          if isHandler then [popSREGScratch, writeSREG, popZeroPair] else []
        let scan := pre ++ handlerCode
        if frameSize = 0 then
          some { bb with instrs := scan ++ ret :: post }
        else
          let p := backSkip scan
          some { bb with instrs :=
            p.1 ++ [epilogueAdjust frameSize, epilogueSPWrite] ++ p.2
              ++ ret :: post }

/-- One element of the callee-saved register list handed to the spiller. -/
structure CalleeSavedInfo where
  reg : Reg
deriving DecidableEq, Repr

/-- The push emitted for one callee-saved register: killed only when the
register was not already live-in. -/
def spillOne (r : Reg) (isNotLiveIn : Bool) : MachineInstr :=
  mkFS .PUSHRr [.reg r false isNotLiveIn false]

/-- The spill loop body over the (already reversed) callee-saved list:
returns the emitted pushes, the updated live-in list and the accumulated
`CalleeFrameSize`; `none` models the fatal assertion that every register is
one byte wide. -/
def spillRegs (liveIns : List Reg) :
    List CalleeSavedInfo → Option (List MachineInstr × List Reg × Nat)
  | [] => some ([], liveIns, 0)
  | c :: rest =>
    if c.reg.size ≠ 1 then none
    else
      let isNotLiveIn := !liveIns.contains c.reg
      let liveIns2 := if isNotLiveIn then liveIns ++ [c.reg] else liveIns
      match spillRegs liveIns2 rest with
      | none => none
      | some (instrs, li, n) => some (spillOne c.reg isNotLiveIn :: instrs, li, n + 1)

/-- Insert a run of new instructions at a given position of a block's
instruction list (the `BuildMI(MBB, MI, ...)` insertion point). -/
def insertAt (pos : Nat) (new old : List MachineInstr) : List MachineInstr :=
  old.take pos ++ new ++ old.drop pos

/-- `AVRFrameLowering::spillCalleeSavedRegisters`: iterates the list in
reverse order, pushing each register and recording the accumulated byte
count in `calleeSavedFrameSize`; returns false and changes nothing on the
empty list. -/
def spillCalleeSavedRegisters (bb : MachineBasicBlock) (pos : Nat)
    (csi : List CalleeSavedInfo) (afi : AVRMachineFunctionInfo) :
    Option (Bool × MachineBasicBlock × AVRMachineFunctionInfo) :=
  if csi.isEmpty then some (false, bb, afi)
  else
    match spillRegs bb.liveIns csi.reverse with
    | none => none
    | some (pushes, li, n) =>
      some (true, ⟨li, insertAt pos pushes bb.instrs⟩,
        { afi with calleeSavedFrameSize := n })

/-- The pop emitted for one callee-saved register. -/
def restoreOne (r : Reg) : MachineInstr := mkI .POPRd [defReg r]

/-- The restore loop over the callee-saved list in forward order; `none`
models the one-byte register-size assertion. -/
def restoreRegs : List CalleeSavedInfo → Option (List MachineInstr)
  | [] => some []
  | c :: rest =>
    if c.reg.size ≠ 1 then none
    else
      match restoreRegs rest with
      | none => none
      | some l => some (restoreOne c.reg :: l)

/-- `AVRFrameLowering::restoreCalleeSavedRegisters`. -/
def restoreCalleeSavedRegisters (bb : MachineBasicBlock) (pos : Nat)
    (csi : List CalleeSavedInfo) : Option (Bool × MachineBasicBlock) :=
  if csi.isEmpty then some (false, bb)
  else
    match restoreRegs csi with
    | none => none
    | some pops => some (true, { bb with instrs := insertAt pos pops bb.instrs })

/-- `fixStackStores`, from the marker position to the block end: rewrites
`STDSPQRr`/`STDWSPQRr` pseudo stores into pushes (or frame-pointer relative
stores), stopping at the first call instruction. `none` models the fatal
assertions (base register must be SP, offset must fit six unsigned bits) and
the undefined operand accesses. -/
def fixStackStores (insertPushes : Bool) :
    List MachineInstr → Option (List MachineInstr)
  | [] => some []
  | i :: rest =>
    if i.opcode.isCall then some (i :: rest)
    else if i.opcode ≠ .STDSPQRr && i.opcode ≠ .STDWSPQRr then
      match fixStackStores insertPushes rest with
      | none => none
      | some l => some (i :: l)
    else if i.operandReg 0 ≠ some Reg.SP then none
    else if insertPushes then
      match i.operandReg 2 with
      | none => none
      | some src =>
        let kill := i.operandIsKill 2
        let pushes :=
          if i.opcode = .STDWSPQRr then
            [mkI .PUSHRr [.reg src.subHi false kill false],
             mkI .PUSHRr [.reg src.subLo false kill false]]
          else [mkI .PUSHRr [.reg src false kill false]]
        match fixStackStores insertPushes rest with
        | none => none
        | some l => some (pushes ++ l)
    else
      match i.operandImm 1 with
      | none => none
      | some off =>
        if !isUInt6Int off then none
        else
          let stOpc := if i.opcode = .STDWSPQRr then Opcode.STDWPtrQRr
            else Opcode.STDPtrQRr
          match fixStackStores insertPushes rest with
          | none => none
          | some l => some (({ i with opcode := stOpc }).setOperandReg 0 .R29R28 :: l)

/-- The call-frame setup marker opcode. The mapping of
`TII.getCallFrameSetupOpcode()` to `ADJCALLSTACKDOWN` lives in
`AVRInstrInfo`, outside this source file; it follows the standard LLVM
convention (setup is the stack-down marker, teardown the stack-up marker). -/
def callFrameSetupOpcode : Opcode := .ADJCALLSTACKDOWN

/-- The call-frame teardown marker opcode (`TII.getCallFrameDestroyOpcode()`). -/
def callFrameDestroyOpcode : Opcode := .ADJCALLSTACKUP

/-- `AVRFrameLowering::eliminateCallFramePseudoInstr` on a block split as
`pre ++ mi :: suf`, where `mi` is the marker being eliminated.
`none` models the fatal assertions (stack alignment must be one, the marker
must be a setup or teardown opcode) and undefined operand accesses. -/
def eliminateCallFramePseudoInstr (stackAlignment : Nat) (MF : MachineFunction)
    (pre : List MachineInstr) (mi : MachineInstr) (suf : List MachineInstr) :
    Option (List MachineInstr) :=
  if hasReservedCallFrame MF then
    -- fixStackStores starts at the marker itself, which is neither a call
    -- nor a stack-store pseudo, so it stays at the head; MBB.erase(MI)
    -- then removes it.
    match fixStackStores false (mi :: suf) with
    | none => none
    | some l => some (pre ++ l.drop 1)
  else
    match mi.operandImm 0 with
    | none => none
    | some amount =>
      if amount ≠ 0 then
        if stackAlignment ≠ 1 then none
        else if mi.opcode = callFrameSetupOpcode then
          match fixStackStores true (mi :: suf) with
          | none => none
          | some l => some (pre ++ l.drop 1)
        else if mi.opcode ≠ callFrameDestroyOpcode then none
        else
          let fits := isUInt6Int amount
          let addOpcode := if fits then Opcode.ADIWRdK else Opcode.SUBIWRdK
          let amt := if fits then amount else -amount
          let seq :=
            [mkI .SPREAD [defReg .R31R30, useReg .SP],
             (mkI addOpcode [defReg .R31R30, useKill .R31R30, .imm amt,
               defReg .SREG]).setOperandDead 3,
             mkI .SPWRITE [defReg .SP, useKill .R31R30]]
          some (pre ++ seq ++ suf)
      else
        some (pre ++ suf)

/-- `AVRFrameLowering::processFunctionBeforeCalleeSavedScan`: reports whether
the frame-pointer register pair gets marked used. -/
def processFunctionBeforeCalleeSavedScan (MF : MachineFunction) : Bool :=
  hasFP MF

/-- The alloca scan over the non-fixed object sizes: stops at the first
non-zero size (variable-sized objects have nominal size zero). -/
def anyNonZeroSize : List Nat → Bool
  | [] => false
  | s :: rest => if s ≠ 0 then true else anyNonZeroSize rest

/-- The indexed load/store opcodes through which stack arguments are
accessed. -/
def stackArgOpcode (o : Opcode) : Bool :=
  o = .LDDRdPtrQ || o = .LDDWRdPtrQ || o = .STDPtrQRr || o = .STDWPtrQRr

/-- Whether one instruction references a fixed stack slot through a
stack-argument addressing mode: the opcode filter followed by the operand
scan for a fixed frame index. -/
def instrRefsFixedSlot (mfi : MachineFrameInfo) (mi : MachineInstr) : Bool :=
  stackArgOpcode mi.opcode &&
    mi.operands.any fun o =>
      match o with
      | .fi idx => mfi.isFixedObjectIndex idx
      | _ => false

/-- First phase of `AVRFrameAnalyzer::runOnMachineFunction`: the alloca
check over the stack-object table, guarded by the presence of non-fixed
frame indexes. -/
def frameAnalyzerAllocas (mfi : MachineFrameInfo) (fi : AVRMachineFunctionInfo) :
    AVRMachineFunctionInfo :=
  if mfi.numObjects - mfi.numFixedObjects ≠ 0 then
    if anyNonZeroSize mfi.objectSizes then { fi with hasAllocas := true }
    else fi
  else fi

/-- `AVRFrameAnalyzer::runOnMachineFunction`: computes the updated
`AVRMachineFunctionInfo` record (the pass itself always returns false);
after the alloca check it scans the instruction stream for fixed-slot
references only when fixed objects exist. -/
def frameAnalyzerRun (mfi : MachineFrameInfo) (blocks : List MachineBasicBlock)
    (fi : AVRMachineFunctionInfo) : AVRMachineFunctionInfo :=
  if mfi.numFixedObjects = 0 then frameAnalyzerAllocas mfi fi
  else if blocks.any (fun b => b.instrs.any (instrRefsFixedSlot mfi)) then
    { frameAnalyzerAllocas mfi fi with hasStackArgs := true }
  else frameAnalyzerAllocas mfi fi

/-- The restore copy `COPY SP, SPCopy<kill>` emitted before each return. -/
def spRestoreCopy (spCopy : Reg) : MachineInstr :=
  mkI .COPY [defReg .SP, useKill spCopy]

/-- The save copy `COPY SPCopy, SP` emitted at function entry. -/
def spSaveCopy (spCopy : Reg) : MachineInstr :=
  mkI .COPY [defReg spCopy, useReg .SP]

/-- The per-block restore step of the dynalloca pass: when the block's last
instruction is a return, insert the restore copy before it (the last
instruction is a return, hence also the last non-debug instruction, so the
insertion point is directly in front of it). -/
def dynRestoreBlock (spCopy : Reg) (b : MachineBasicBlock) : MachineBasicBlock :=
  match b.instrs.getLast? with
  | some last =>
    if last.opcode.isReturn then
      { b with instrs := b.instrs.dropLast ++ [spRestoreCopy spCopy, last] }
    else b
  | none => b

/-- `AVRDynAllocaSR::runOnMachineFunction`: no-op without variable-sized
objects; otherwise copies SP into a fresh virtual register at function entry
and restores it before every return. `none` models `MF.front()` on a
function without blocks. -/
def dynAllocaRun (mfi : MachineFrameInfo) (nextVReg : Nat)
    (blocks : List MachineBasicBlock) : Option (Bool × List MachineBasicBlock) :=
  if !mfi.hasVarSizedObjects then some (false, blocks)
  else
    match blocks with
    | [] => none
    | entry :: rest =>
      let spCopy := Reg.virt nextVReg
      let entry2 := { entry with instrs := spSaveCopy spCopy :: entry.instrs }
      some (true, (entry2 :: rest).map (dynRestoreBlock spCopy))

/-- Sample interrupt-handler function with all metadata flags false. -/
def MFc1 : MachineFunction :=
  ⟨.AVR_INTR, ⟨0, 0, false, [], []⟩, ⟨false, false, false, 0⟩⟩

/-- C1: `hasFP` returns true iff at least one of `hasSpills`, `hasAllocas`,
`hasStackArgs` is true; when all three are false, `hasFP` is false and
`emitPrologue` inserts only the handler-convention code, none of which is a
frame-pointer materialization instruction (`SPREAD`, a frame adjust, or
`SPWRITE`). -/
theorem claim_C1 (MF : MachineFunction) (entry : MachineBasicBlock)
    (rest : List MachineBasicBlock)
    (h : MF.funcInfo.hasSpills = false ∧ MF.funcInfo.hasAllocas = false ∧
      MF.funcInfo.hasStackArgs = false) :
    (∀ MF2 : MachineFunction, hasFP MF2 = true ↔
      (MF2.funcInfo.hasSpills = true ∨ MF2.funcInfo.hasAllocas = true ∨
        MF2.funcInfo.hasStackArgs = true)) ∧
    hasFP MF = false ∧
    emitPrologue MF (entry :: rest) =
      { entry with instrs := handlerPrologue MF.callConv ++ entry.instrs } :: rest ∧
    ∀ mi ∈ handlerPrologue MF.callConv,
      mi.opcode ≠ .SPREAD ∧ mi.opcode ≠ .SBIWRdK ∧ mi.opcode ≠ .SUBIWRdK ∧
        mi.opcode ≠ .SPWRITE := by
  obtain ⟨h1, h2, h3⟩ := h
  refine ⟨?_, ?_, ?_, ?_⟩
  · intro MF2; simp [hasFP, or_assoc]
  · simp [hasFP, h1, h2, h3]
  · simp [emitPrologue, hasFP, h1, h2, h3]
  · generalize MF.callConv = cc
    cases cc <;> decide

/-- Witness for C1 at a concrete interrupt handler with no flags set. -/
theorem claim_C1_witness :
    (MFc1.funcInfo.hasSpills = false ∧ MFc1.funcInfo.hasAllocas = false ∧
      MFc1.funcInfo.hasStackArgs = false) ∧
    hasFP MFc1 = false ∧
    emitPrologue MFc1 [⟨[], []⟩] =
      [⟨[], [interruptEnable, pushZeroPair, readSREG, pushSREGScratch]⟩] := by
  have h := claim_C1 MFc1 ⟨[], []⟩ [] (by decide)
  exact ⟨by decide, h.2.1, by rw [h.2.2.1]; decide⟩

/-- C2: `hasReservedCallFrame` is true iff `hasFP` holds, there are no
variable-sized stack objects, and the maximum call-frame size is at most 63;
in particular it is false whenever a variable-sized object exists. -/
theorem claim_C2 :
    (∀ MF : MachineFunction, hasReservedCallFrame MF = true ↔
      (hasFP MF = true ∧ MF.frameInfo.hasVarSizedObjects = false ∧
        MF.frameInfo.maxCallFrameSize ≤ 63)) ∧
    ∀ MF : MachineFunction, MF.frameInfo.hasVarSizedObjects = true →
      hasReservedCallFrame MF = false := by
  have key : ∀ MF : MachineFunction, hasReservedCallFrame MF = true ↔
      (hasFP MF = true ∧ MF.frameInfo.hasVarSizedObjects = false ∧
        MF.frameInfo.maxCallFrameSize ≤ 63) := by
    intro MF
    simp only [hasReservedCallFrame, isUInt6, Bool.and_eq_true,
      Bool.not_eq_true', decide_eq_true_eq, and_assoc]
    constructor
    · rintro ⟨a, b, c⟩; exact ⟨a, b, by omega⟩
    · rintro ⟨a, b, c⟩; exact ⟨a, b, by omega⟩
  refine ⟨key, fun MF hv => ?_⟩
  by_contra hne
  have := (key MF).mp (by revert hne; cases hasReservedCallFrame MF <;> simp)
  rw [hv] at this
  exact Bool.true_eq_false.mp this.2.1

/-- Sample function with a variable-sized stack object and `hasFP` true. -/
def MFc2 : MachineFunction :=
  ⟨.C, ⟨10, 200, true, [], []⟩, ⟨true, false, false, 0⟩⟩

/-- Witness for C2: a function with a variable-sized object and `hasFP` true
still has no reserved call frame. -/
theorem claim_C2_witness :
    MFc2.frameInfo.hasVarSizedObjects = true ∧
    hasFP MFc2 = true ∧
    hasReservedCallFrame MFc2 = false :=
  ⟨by decide, by decide, claim_C2.2 MFc2 (by decide)⟩

/-- C10: invoked with an empty callee-saved list, the spiller returns false,
emits nothing, and returns the metadata record as given — in particular
`calleeSavedFrameSize` keeps whatever value it held before the call. -/
theorem claim_C10 (bb : MachineBasicBlock) (pos : Nat)
    (afi : AVRMachineFunctionInfo) :
    spillCalleeSavedRegisters bb pos [] afi = some (false, bb, afi) ∧
    (spillCalleeSavedRegisters bb pos [] afi).map
      (fun r => r.2.2.calleeSavedFrameSize) = some afi.calleeSavedFrameSize := by
  simp [spillCalleeSavedRegisters]

/-- Witness for C10: a stale `calleeSavedFrameSize` of 5 survives an
empty-list spill call. -/
theorem claim_C10_witness :
    spillCalleeSavedRegisters ⟨[], []⟩ 0 [] ⟨false, false, false, 5⟩ =
      some (false, ⟨[], []⟩, ⟨false, false, false, 5⟩) :=
  (claim_C10 ⟨[], []⟩ 0 ⟨false, false, false, 5⟩).1

/-- The register pushed by a `spillOne` instruction. -/
theorem spillOne_operandReg (r : Reg) (k : Bool) :
    (spillOne r k).operandReg 0 = some r := rfl

/-- The register popped by a `restoreOne` instruction. -/
theorem restoreOne_operandReg (r : Reg) :
    (restoreOne r).operandReg 0 = some r := rfl

/-- Characterization of the spill loop: on a list of one-byte registers it
succeeds, counts one byte per register, and pushes the registers in list
order. -/
theorem spillRegs_spec (l : List CalleeSavedInfo) :
    ∀ liveIns, (∀ c ∈ l, c.reg.size = 1) →
      ∃ pushes li, spillRegs liveIns l = some (pushes, li, l.length) ∧
        pushes.map (fun i => i.opcode) = List.replicate l.length Opcode.PUSHRr ∧
        pushes.map (fun i => i.operandReg 0) = l.map fun c => some c.reg := by
  induction l with
  | nil => exact fun li _ => ⟨[], li, rfl, rfl, rfl⟩
  | cons c rest ih =>
    intro liveIns hsz
    have hc : c.reg.size = 1 := hsz c (List.mem_cons_self c rest)
    obtain ⟨pushes, li, heq, h1, h2⟩ :=
      ih (if !liveIns.contains c.reg then liveIns ++ [c.reg] else liveIns)
        (fun x hx => hsz x (List.mem_cons_of_mem c hx))
    refine ⟨spillOne c.reg (!liveIns.contains c.reg) :: pushes, li, ?_, ?_, ?_⟩
    · rw [spillRegs, if_neg (by simp [hc])]
      show (match spillRegs (if (!liveIns.contains c.reg) = true then
          liveIns ++ [c.reg] else liveIns) rest with
        | none => none
        | some (instrs, li2, n) =>
          some (spillOne c.reg (!liveIns.contains c.reg) :: instrs, li2, n + 1)) =
        some ((spillOne c.reg (!liveIns.contains c.reg)) :: pushes, li,
          (c :: rest).length)
      rw [heq]
      rfl
    · simp [List.replicate_succ, h1, spillOne, mkFS]
    · simp [h2, spillOne_operandReg]

/-- Characterization of the restore loop: on a list of one-byte registers it
pops the registers in forward list order. -/
theorem restoreRegs_spec (l : List CalleeSavedInfo)
    (hsz : ∀ c ∈ l, c.reg.size = 1) :
    restoreRegs l = some (l.map fun c => restoreOne c.reg) := by
  induction l with
  | nil => rfl
  | cons c rest ih =>
    have hc : c.reg.size = 1 := hsz c (List.mem_cons_self c rest)
    rw [List.map_cons, restoreRegs, if_neg (by simp [hc]),
      ih fun x hx => hsz x (List.mem_cons_of_mem c hx)]

/-- C3: for a non-empty callee-saved list `[r1, ..., rn]` of one-byte
registers the spiller emits `n` single-byte pushes in the order `rn, ..., r1`
and records `calleeSavedFrameSize = n`, while the restorer emits pops in the
order `r1, ..., rn` — the exact reverse of the push order; on the empty list
both return false and emit nothing. -/
theorem claim_C3 (bb : MachineBasicBlock) (pos pos2 : Nat)
    (csi : List CalleeSavedInfo) (afi : AVRMachineFunctionInfo)
    (hsz : ∀ c ∈ csi, c.reg.size = 1) :
    (csi = [] →
      spillCalleeSavedRegisters bb pos csi afi = some (false, bb, afi) ∧
      restoreCalleeSavedRegisters bb pos2 csi = some (false, bb)) ∧
    (csi ≠ [] →
      ∃ pushes li,
        spillCalleeSavedRegisters bb pos csi afi =
          some (true, ⟨li, insertAt pos pushes bb.instrs⟩,
            { afi with calleeSavedFrameSize := csi.length }) ∧
        pushes.map (fun i => i.opcode) =
          List.replicate csi.length Opcode.PUSHRr ∧
        pushes.map (fun i => i.operandReg 0) =
          (csi.map fun c => some c.reg).reverse ∧
        restoreCalleeSavedRegisters bb pos2 csi =
          some (true, ⟨bb.liveIns,
            insertAt pos2 (csi.map fun c => restoreOne c.reg) bb.instrs⟩) ∧
        (csi.map fun c => restoreOne c.reg).map (fun i => i.operandReg 0) =
          (pushes.map fun i => i.operandReg 0).reverse) := by
  constructor
  · rintro rfl
    exact ⟨by simp [spillCalleeSavedRegisters],
      by simp [restoreCalleeSavedRegisters]⟩
  · intro hne
    obtain ⟨pushes, li, heq, h1, h2⟩ := spillRegs_spec csi.reverse bb.liveIns
      (fun c hc => hsz c (List.mem_reverse.mp hc))
    have hemp : csi.isEmpty = false := by
      cases csi with
      | nil => exact absurd rfl hne
      | cons a l => rfl
    refine ⟨pushes, li, ?_, ?_, ?_, ?_, ?_⟩
    · simp [spillCalleeSavedRegisters, hemp, heq, List.length_reverse]
    · simpa [List.length_reverse] using h1
    · simpa [List.map_reverse] using h2
    · simp [restoreCalleeSavedRegisters, hemp, restoreRegs_spec csi hsz]
    · rw [h2, List.map_reverse, List.reverse_reverse, List.map_map]
      simp [Function.comp, restoreOne_operandReg]

/-- Concrete three-register callee-saved list used by the C3 witness. -/
def csiC3 : List CalleeSavedInfo := [⟨.gpr 2⟩, ⟨.gpr 3⟩, ⟨.gpr 4⟩]

/-- Witness for C3 at a concrete three-register list with an empty block. -/
theorem claim_C3_witness :
    (∀ c ∈ csiC3, c.reg.size = 1) ∧ csiC3 ≠ [] ∧
    (csiC3 ≠ [] →
      ∃ pushes li,
        spillCalleeSavedRegisters ⟨[], []⟩ 0 csiC3 ⟨false, false, false, 0⟩ =
          some (true, ⟨li, insertAt 0 pushes []⟩,
            { hasSpills := false, hasAllocas := false, hasStackArgs := false,
              calleeSavedFrameSize := csiC3.length }) ∧
        pushes.map (fun i => i.opcode) =
          List.replicate csiC3.length Opcode.PUSHRr ∧
        pushes.map (fun i => i.operandReg 0) =
          (csiC3.map fun c => some c.reg).reverse ∧
        restoreCalleeSavedRegisters ⟨[], []⟩ 0 csiC3 =
          some (true, ⟨[], insertAt 0 (csiC3.map fun c => restoreOne c.reg) []⟩) ∧
        (csiC3.map fun c => restoreOne c.reg).map (fun i => i.operandReg 0) =
          (pushes.map fun i => i.operandReg 0).reverse) :=
  ⟨by decide, by decide,
    (claim_C3 ⟨[], []⟩ 0 0 csiC3 ⟨false, false, false, 0⟩ (by decide)).2⟩

/-- `getLastNonDebugInstr` on a block whose last instruction is a non-debug
instruction finds exactly that instruction. -/
theorem splitLastNonDebug_append (pre : List MachineInstr) (ret : MachineInstr)
    (h : ret.isDebugValue = false) :
    splitLastNonDebug (pre ++ [ret]) = some (pre, ret, []) := by
  induction pre with
  | nil => simp [splitLastNonDebug, h]
  | cons i rest ih => simp [splitLastNonDebug, ih]

/-- C4: in both prologue and epilogue, `FrameSize` is the 32-bit difference
`stackSize - calleeSavedFrameSize`; a zero value emits no adjustment, a value
below 64 selects the short-immediate form (`SBIW` in the prologue, `ADIW` in
the epilogue) carrying `FrameSize` itself, and a value of 64 or more selects
the general `SUBIW` form (the amount 32-bit-negated in the epilogue). -/
theorem claim_C4 (MF : MachineFunction) (entry bb : MachineBasicBlock)
    (rest : List MachineBasicBlock) (pre : List MachineInstr)
    (ret : MachineInstr) (hFP : hasFP MF = true) (hcc : MF.callConv = .C)
    (hret : ret.opcode.isReturn = true) (hnd : ret.isDebugValue = false)
    (hbb : bb.instrs = pre ++ [ret]) :
    (emitPrologue MF (entry :: rest)).head?.map (fun b => b.instrs) =
      some (handlerPrologue MF.callConv ++ (spanPushes entry.instrs).1 ++
        [spreadFP] ++
        (if usub32 MF.frameInfo.stackSize MF.funcInfo.calleeSavedFrameSize = 0
         then []
         else [prologueAdjust (usub32 MF.frameInfo.stackSize
                MF.funcInfo.calleeSavedFrameSize), prologueSPWrite]) ++
        (spanPushes entry.instrs).2) ∧
    (∀ fs : Nat, (prologueAdjust fs).opcode =
      if fs < 64 then Opcode.SBIWRdK else Opcode.SUBIWRdK) ∧
    (∀ fs : Nat, (prologueAdjust fs).operandImm 2 = some (Int.ofNat fs)) ∧
    emitEpilogue MF bb =
      some ⟨bb.liveIns,
        (if usub32 MF.frameInfo.stackSize MF.funcInfo.calleeSavedFrameSize = 0
         then pre
         else (backSkip pre).1 ++
           [epilogueAdjust (usub32 MF.frameInfo.stackSize
              MF.funcInfo.calleeSavedFrameSize), epilogueSPWrite] ++
           (backSkip pre).2) ++ [ret]⟩ ∧
    (∀ fs : Nat, (epilogueAdjust fs).opcode =
      if fs < 64 then Opcode.ADIWRdK else Opcode.SUBIWRdK) ∧
    (∀ fs : Nat, (epilogueAdjust fs).operandImm 2 =
      some (Int.ofNat (if fs < 64 then fs else neg32 fs))) := by
  refine ⟨?_, ?_, ?_, ?_, ?_, ?_⟩
  · simp only [emitPrologue, hFP, Bool.not_true, Bool.false_eq_true, if_false]
    by_cases hfs : usub32 MF.frameInfo.stackSize MF.funcInfo.calleeSavedFrameSize = 0 <;>
      simp [hfs, List.append_assoc]
  · intro fs
    by_cases hfs : fs < 64 <;>
      simp [prologueAdjust, isUInt6, hfs, mkFS, MachineInstr.setOperandDead]
  · intro fs
    by_cases hfs : fs < 64 <;>
      simp [prologueAdjust, isUInt6, hfs, mkFS, MachineInstr.setOperandDead,
        MachineInstr.operandImm]
  · simp only [emitEpilogue, hcc, hFP]
    rw [hbb, splitLastNonDebug_append pre ret hnd]
    simp only [hret]
    by_cases hfs : usub32 MF.frameInfo.stackSize MF.funcInfo.calleeSavedFrameSize = 0 <;>
      simp [hfs]
  · intro fs
    by_cases hfs : fs < 64 <;>
      simp [epilogueAdjust, isUInt6, hfs, mkI, MachineInstr.setOperandDead]
  · intro fs
    by_cases hfs : fs < 64 <;>
      simp [epilogueAdjust, isUInt6, hfs, mkI, MachineInstr.setOperandDead,
        MachineInstr.operandImm]

/-- Sample normal function with `hasSpills` and stack size 63. -/
def MFc4 : MachineFunction :=
  ⟨.C, ⟨63, 0, false, [], []⟩, ⟨true, false, false, 0⟩⟩

/-- The return instruction used in the C4 witness block. -/
def retC4 : MachineInstr := mkI .RET []

/-- Witness for C4 at frame size 63: the prologue picks `SBIW 63`, the
epilogue `ADIW 63`. -/
theorem claim_C4_witness :
    hasFP MFc4 = true ∧ retC4.opcode.isReturn = true ∧
    (emitPrologue MFc4 [⟨[], []⟩]).head?.map (fun b => b.instrs) =
      some [spreadFP, prologueAdjust 63, prologueSPWrite] ∧
    emitEpilogue MFc4 ⟨[], [retC4]⟩ =
      some ⟨[], [epilogueAdjust 63, epilogueSPWrite, retC4]⟩ ∧
    (prologueAdjust 63).opcode = Opcode.SBIWRdK ∧
    (epilogueAdjust 63).opcode = Opcode.ADIWRdK ∧
    (prologueAdjust 64).opcode = Opcode.SUBIWRdK ∧
    (epilogueAdjust 64).opcode = Opcode.SUBIWRdK := by
  have h := claim_C4 MFc4 ⟨[], []⟩ ⟨[], [retC4]⟩ [] [] retC4 (by decide) rfl
    (by decide) (by decide) rfl
  refine ⟨by decide, by decide, ?_, ?_, ?_, ?_, ?_, ?_⟩
  · rw [h.1]; decide
  · rw [h.2.2.2.1]; decide
  · rw [h.2.1 63]; decide
  · rw [h.2.2.2.2.1 63]; decide
  · rw [h.2.1 64]; decide
  · rw [h.2.2.2.2.1 64]; decide

/-- The alloca scan finds a slot iff some non-fixed slot has non-zero size. -/
theorem anyNonZeroSize_iff (l : List Nat) :
    anyNonZeroSize l = true ↔ ∃ s ∈ l, s ≠ 0 := by
  induction l with
  | nil => simp [anyNonZeroSize]
  | cons s rest ih => by_cases hs : s = 0 <;> simp [anyNonZeroSize, hs, ih]

/-- Without fixed objects no operand can reference a fixed frame index. -/
theorem instrRefsFixedSlot_of_no_fixed (mfi : MachineFrameInfo)
    (hf : mfi.numFixedObjects = 0) (mi : MachineInstr) :
    instrRefsFixedSlot mfi mi = false := by
  unfold instrRefsFixedSlot
  rw [Bool.and_eq_false_iff]
  right
  rw [List.any_eq_false]
  intro o _
  cases o with
  | reg r d k dd => simp
  | imm v => simp
  | fi idx =>
    show ¬(mfi.isFixedObjectIndex idx = true)
    rw [MachineFrameInfo.isFixedObjectIndex, hf]
    simp only [Bool.and_eq_true, decide_eq_true_eq]
    rintro ⟨hlt, hle⟩
    have hge : (0 : Int) ≤ idx := hle
    omega

/-- The alloca phase sets `hasAllocas` exactly when the non-fixed object
scan finds a non-zero size. -/
theorem frameAnalyzerAllocas_hasAllocas (mfi : MachineFrameInfo)
    (fi : AVRMachineFunctionInfo) :
    (frameAnalyzerAllocas mfi fi).hasAllocas =
      (fi.hasAllocas || anyNonZeroSize mfi.objectSizes) := by
  unfold frameAnalyzerAllocas
  have hsub : mfi.numObjects - mfi.numFixedObjects = mfi.objectSizes.length := by
    simp [MachineFrameInfo.numObjects, MachineFrameInfo.numFixedObjects]
  rw [hsub]
  by_cases hg : mfi.objectSizes.length = 0
  · have hnil : mfi.objectSizes = [] := List.length_eq_zero.mp hg
    simp [hg, hnil, anyNonZeroSize]
  · by_cases ha : anyNonZeroSize mfi.objectSizes = true <;> simp [hg, ha]

/-- The alloca phase never touches `hasStackArgs`. -/
theorem frameAnalyzerAllocas_hasStackArgs (mfi : MachineFrameInfo)
    (fi : AVRMachineFunctionInfo) :
    (frameAnalyzerAllocas mfi fi).hasStackArgs = fi.hasStackArgs := by
  unfold frameAnalyzerAllocas
  split
  · split <;> rfl
  · rfl

/-- The analyzer's effect on `hasAllocas`. -/
theorem frameAnalyzerRun_hasAllocas (mfi : MachineFrameInfo)
    (blocks : List MachineBasicBlock) (fi : AVRMachineFunctionInfo) :
    (frameAnalyzerRun mfi blocks fi).hasAllocas =
      (fi.hasAllocas || anyNonZeroSize mfi.objectSizes) := by
  unfold frameAnalyzerRun
  split
  · exact frameAnalyzerAllocas_hasAllocas mfi fi
  · split
    · exact frameAnalyzerAllocas_hasAllocas mfi fi
    · exact frameAnalyzerAllocas_hasAllocas mfi fi

/-- The analyzer's effect on `hasStackArgs`. -/
theorem frameAnalyzerRun_hasStackArgs (mfi : MachineFrameInfo)
    (blocks : List MachineBasicBlock) (fi : AVRMachineFunctionInfo) :
    (frameAnalyzerRun mfi blocks fi).hasStackArgs =
      (fi.hasStackArgs || (decide (mfi.numFixedObjects ≠ 0) &&
        blocks.any fun b => b.instrs.any (instrRefsFixedSlot mfi))) := by
  unfold frameAnalyzerRun
  by_cases hf : mfi.numFixedObjects = 0
  · simp [hf, frameAnalyzerAllocas_hasStackArgs]
  · by_cases hany : (blocks.any fun b => b.instrs.any (instrRefsFixedSlot mfi)) = true
    · simp [hf, hany]
    · simp [hf, hany, frameAnalyzerAllocas_hasStackArgs]

/-- C6: starting from a fresh metadata record, the analyzer sets `hasAllocas`
iff some non-fixed stack slot has non-zero nominal size, sets `hasStackArgs`
iff some instruction with a stack-argument indexed load/store opcode
references a fixed slot, and when the function has no fixed slots the result
does not depend on the instruction stream at all and `hasStackArgs` stays
false. -/
theorem claim_C6 (mfi : MachineFrameInfo) (blocks : List MachineBasicBlock)
    (fi : AVRMachineFunctionInfo) (h1 : fi.hasAllocas = false)
    (h2 : fi.hasStackArgs = false) :
    ((frameAnalyzerRun mfi blocks fi).hasAllocas = true ↔
      ∃ s ∈ mfi.objectSizes, s ≠ 0) ∧
    ((frameAnalyzerRun mfi blocks fi).hasStackArgs = true ↔
      ∃ b ∈ blocks, ∃ mi ∈ b.instrs, instrRefsFixedSlot mfi mi = true) ∧
    (mfi.numFixedObjects = 0 →
      ∀ blocks2 : List MachineBasicBlock,
        frameAnalyzerRun mfi blocks2 fi = frameAnalyzerRun mfi blocks fi ∧
        (frameAnalyzerRun mfi blocks2 fi).hasStackArgs = false) := by
  refine ⟨?_, ?_, ?_⟩
  · rw [frameAnalyzerRun_hasAllocas, h1, Bool.false_or, anyNonZeroSize_iff]
  · rw [frameAnalyzerRun_hasStackArgs, h2, Bool.false_or]
    by_cases hf : mfi.numFixedObjects = 0
    · constructor
      · intro habs
        rw [hf] at habs
        simp at habs
      · rintro ⟨b, _, mi, _, href⟩
        rw [instrRefsFixedSlot_of_no_fixed mfi hf mi] at href
        exact absurd href (by simp)
    · simp [hf, List.any_eq_true]
  · intro hf blocks2
    constructor
    · simp [frameAnalyzerRun, hf]
    · rw [frameAnalyzerRun_hasStackArgs, h2]
      simp [hf]

/-- Frame info used by the C6 witness: one fixed slot, non-fixed slots of
sizes 0 and 3. -/
def mfiC6 : MachineFrameInfo := ⟨0, 0, false, [2], [0, 3]⟩

/-- Block list used by the C6 witness: one indexed load referencing the
fixed slot with frame index -1. -/
def blocksC6 : List MachineBasicBlock :=
  [⟨[], [mkI .LDDRdPtrQ [defReg (.gpr 24), .fi (-1), .imm 0]]⟩]

/-- Witness for C6: the analyzer sets both flags on the sample function. -/
theorem claim_C6_witness :
    ((⟨false, false, false, 0⟩ : AVRMachineFunctionInfo).hasAllocas = false) ∧
    ((⟨false, false, false, 0⟩ : AVRMachineFunctionInfo).hasStackArgs = false) ∧
    (frameAnalyzerRun mfiC6 blocksC6 ⟨false, false, false, 0⟩).hasAllocas = true ∧
    (frameAnalyzerRun mfiC6 blocksC6 ⟨false, false, false, 0⟩).hasStackArgs = true := by
  have h := claim_C6 mfiC6 blocksC6 ⟨false, false, false, 0⟩ rfl rfl
  exact ⟨rfl, rfl, h.1.mpr (by decide), h.2.1.mpr (by decide)⟩

/-- A block ending in a return gets the restore copy inserted directly
before that return. -/
theorem dynRestoreBlock_of_return (spCopy : Reg) (b : MachineBasicBlock)
    (last : MachineInstr) (hl : b.instrs.getLast? = some last)
    (hr : last.opcode.isReturn = true) :
    dynRestoreBlock spCopy b =
      ⟨b.liveIns, b.instrs.dropLast ++ [spRestoreCopy spCopy, last]⟩ := by
  unfold dynRestoreBlock
  rw [hl]
  simp [hr]

/-- A block not ending in a return is left unchanged by the restore step. -/
theorem dynRestoreBlock_of_not_return (spCopy : Reg) (b : MachineBasicBlock)
    (h : ∀ last, b.instrs.getLast? = some last → last.opcode.isReturn = false) :
    dynRestoreBlock spCopy b = b := by
  unfold dynRestoreBlock
  split
  · rename_i last hl
    rw [h last hl]
    simp
  · rfl

/-- The restore step only ever adds the restore copy to a block. -/
theorem mem_dynRestoreBlock (spCopy : Reg) (b : MachineBasicBlock)
    (i : MachineInstr) (hi : i ∈ (dynRestoreBlock spCopy b).instrs) :
    i ∈ b.instrs ∨ i = spRestoreCopy spCopy := by
  unfold dynRestoreBlock at hi
  split at hi
  · rename_i last hl
    split at hi
    · have hi2 : i ∈ b.instrs.dropLast ++ [spRestoreCopy spCopy, last] := hi
      rw [List.mem_append] at hi2
      rcases hi2 with h | h
      · exact Or.inl (List.dropLast_subset b.instrs h)
      · rcases List.mem_cons.mp h with h2 | h2
        · exact Or.inr h2
        · rcases List.mem_cons.mp h2 with h3 | h3
          · exact Or.inl (h3 ▸ List.mem_of_getLast?_eq_some hl)
          · exact absurd h3 (List.not_mem_nil i)
    · exact Or.inl hi
  · exact Or.inl hi

/-- The save copy and the restore copy are never the same instruction. -/
theorem spSaveCopy_ne_spRestoreCopy (r s : Reg) :
    spSaveCopy r ≠ spRestoreCopy s := by
  simp [spSaveCopy, spRestoreCopy, mkI, defReg, useReg, useKill]

/-- C9: without variable-sized objects the dynalloca pass changes nothing;
with them it emits exactly one copy of SP into the fresh scratch register at
the very start of the entry block, and every block whose last instruction is
a return gets a restore copy (scratch killed) inserted directly before that
return, all other blocks being left unchanged. -/
theorem claim_C9 (mfi : MachineFrameInfo) (v : Nat)
    (entry : MachineBasicBlock) (rest : List MachineBasicBlock)
    (hfresh : ∀ b ∈ entry :: rest, spSaveCopy (Reg.virt v) ∉ b.instrs) :
    (mfi.hasVarSizedObjects = false →
      dynAllocaRun mfi v (entry :: rest) = some (false, entry :: rest)) ∧
    (mfi.hasVarSizedObjects = true →
      ∃ bs, dynAllocaRun mfi v (entry :: rest) = some (true, bs) ∧
        bs = dynRestoreBlock (Reg.virt v)
            ⟨entry.liveIns, spSaveCopy (Reg.virt v) :: entry.instrs⟩ ::
          rest.map (dynRestoreBlock (Reg.virt v)) ∧
        (bs.headD ⟨[], []⟩).instrs.head? = some (spSaveCopy (Reg.virt v)) ∧
        (bs.headD ⟨[], []⟩).instrs.count (spSaveCopy (Reg.virt v)) = 1 ∧
        (∀ b ∈ bs.tail, spSaveCopy (Reg.virt v) ∉ b.instrs) ∧
        (∀ sp : Reg, ∀ b : MachineBasicBlock, ∀ last : MachineInstr,
          b.instrs.getLast? = some last → last.opcode.isReturn = true →
          dynRestoreBlock sp b =
            ⟨b.liveIns, b.instrs.dropLast ++ [spRestoreCopy sp, last]⟩) ∧
        (∀ sp : Reg, ∀ b : MachineBasicBlock,
          (∀ last, b.instrs.getLast? = some last →
            last.opcode.isReturn = false) →
          dynRestoreBlock sp b = b)) := by
  constructor
  · intro hv
    unfold dynAllocaRun
    rw [hv]
    rfl
  · intro hv
    refine ⟨_, ?_, rfl, ?_, ?_, ?_, dynRestoreBlock_of_return,
      dynRestoreBlock_of_not_return⟩
    · unfold dynAllocaRun
      rw [hv]
      rfl
    · -- head of the transformed entry block is still the save copy
      rw [List.headD_cons]
      cases hl : (spSaveCopy (Reg.virt v) :: entry.instrs).getLast? with
      | none => simp at hl
      | some last =>
        by_cases hr : last.opcode.isReturn = true
        · rw [dynRestoreBlock_of_return _ _ last hl hr]
          cases hent : entry.instrs with
          | nil =>
            rw [hent] at hl
            simp only [List.getLast?_singleton, Option.some.injEq] at hl
            rw [← hl] at hr
            simp [spSaveCopy, mkI, Opcode.isReturn] at hr
          | cons x xs =>
            rfl
        · rw [dynRestoreBlock_of_not_return]
          · rfl
          · intro l2 hl2
            rw [hl2] at hl
            have hl2e : l2 = last := Option.some.inj hl
            rw [hl2e]
            cases h2 : last.opcode.isReturn with
            | false => rfl
            | true => exact absurd h2 hr
    · -- the save copy occurs exactly once in the transformed entry block
      rw [List.headD_cons]
      have hnotin : spSaveCopy (Reg.virt v) ∉ entry.instrs :=
        hfresh entry (List.mem_cons_self entry rest)
      cases hl : (spSaveCopy (Reg.virt v) :: entry.instrs).getLast? with
      | none => simp at hl
      | some last =>
        by_cases hr : last.opcode.isReturn = true
        · rw [dynRestoreBlock_of_return _ _ last hl hr]
          have hlast_ne : last ≠ spSaveCopy (Reg.virt v) := by
            intro hcontra
            rw [hcontra] at hr
            simp [spSaveCopy, mkI, Opcode.isReturn] at hr
          cases hent : entry.instrs with
          | nil =>
            rw [hent] at hl
            simp only [List.getLast?_singleton, Option.some.injEq] at hl
            exact absurd hl.symm hlast_ne
          | cons x xs =>
            rw [hent] at hnotin
            have hstep : ((spSaveCopy (Reg.virt v) :: x :: xs).dropLast ++
                [spRestoreCopy (Reg.virt v), last]) =
                spSaveCopy (Reg.virt v) :: ((x :: xs).dropLast ++
                  [spRestoreCopy (Reg.virt v), last]) := rfl
            show ((spSaveCopy (Reg.virt v) :: x :: xs).dropLast ++
              [spRestoreCopy (Reg.virt v), last]).count (spSaveCopy (Reg.virt v)) = 1
            rw [hstep, List.count_cons_self, List.count_append]
            have h0 : (x :: xs).dropLast.count (spSaveCopy (Reg.virt v)) = 0 :=
              List.count_eq_zero.mpr fun hmem =>
                hnotin (List.dropLast_subset (x :: xs) hmem)
            have h1 : ([spRestoreCopy (Reg.virt v), last]).count
                (spSaveCopy (Reg.virt v)) = 0 := by
              rw [List.count_eq_zero]
              intro hmem
              rcases List.mem_cons.mp hmem with h | h
              · exact spSaveCopy_ne_spRestoreCopy _ _ h
              · rcases List.mem_cons.mp h with h2 | h2
                · exact hlast_ne h2.symm
                · exact absurd h2 (List.not_mem_nil _)
            rw [h0, h1]
        · rw [dynRestoreBlock_of_not_return]
          · show (spSaveCopy (Reg.virt v) :: entry.instrs).count
              (spSaveCopy (Reg.virt v)) = 1
            rw [List.count_cons_self, List.count_eq_zero.mpr hnotin]
          · intro l2 hl2
            rw [hl2] at hl
            have hl2e : l2 = last := Option.some.inj hl
            rw [hl2e]
            cases h2 : last.opcode.isReturn with
            | false => rfl
            | true => exact absurd h2 hr
    · -- tail blocks never contain the save copy
      intro b hb
      rw [List.tail_cons] at hb
      rcases List.mem_map.mp hb with ⟨b0, hb0, rfl⟩
      intro hmem
      rcases mem_dynRestoreBlock _ _ _ hmem with h | h
      · exact hfresh b0 (List.mem_cons_of_mem entry hb0) h
      · exact spSaveCopy_ne_spRestoreCopy _ _ h

/-- Frame info used by the C9 witness: a variable-sized object present. -/
def mfiC9 : MachineFrameInfo := ⟨0, 0, true, [], []⟩

/-- Return instruction of the C9 witness entry block. -/
def retC9 : MachineInstr := mkI .RET []

/-- Entry block of the C9 witness, ending in a return. -/
def entryC9 : MachineBasicBlock := ⟨[], [retC9]⟩

/-- Second block of the C9 witness, ending in a branch. -/
def bbC9 : MachineBasicBlock := ⟨[], [mkI .RJMPk []]⟩

/-- Witness for C9: the pass saves SP at entry and restores it before the
return of the returning block only. -/
theorem claim_C9_witness :
    mfiC9.hasVarSizedObjects = true ∧
    (∀ b ∈ entryC9 :: [bbC9], spSaveCopy (Reg.virt 7) ∉ b.instrs) ∧
    dynAllocaRun mfiC9 7 [entryC9, bbC9] =
      some (true,
        [⟨[], [spSaveCopy (Reg.virt 7), spRestoreCopy (Reg.virt 7), retC9]⟩,
         bbC9]) := by
  obtain ⟨bs, heq, hbs, -⟩ := (claim_C9 mfiC9 7 entryC9 [bbC9] (by decide)).2 rfl
  refine ⟨rfl, by decide, ?_⟩
  rw [heq, hbs]
  decide

/-- Expansion of one pre-call instruction under the push conversion as the
spec words it (for comparison with the `fixStackStores` loop): a two-byte
stack-store placeholder becomes two single-byte pushes, high byte first, a
one-byte placeholder becomes one push, and any other instruction is kept. -/
def pushExpandSpec (i : MachineInstr) : List MachineInstr :=
  if i.opcode = .STDWSPQRr then
    match i.operandReg 2 with
    | some src =>
      [mkI .PUSHRr [.reg src.subHi false (i.operandIsKill 2) false],
       mkI .PUSHRr [.reg src.subLo false (i.operandIsKill 2) false]]
    | none => []
  else if i.opcode = .STDSPQRr then
    match i.operandReg 2 with
    | some src => [mkI .PUSHRr [.reg src false (i.operandIsKill 2) false]]
    | none => []
  else [i]

/-- Well-formedness of a stack-store placeholder: operand 0 is the SP base
register and operand 2 is a register, as the assertions demand. -/
def storeWF (i : MachineInstr) : Bool :=
  if i.opcode = .STDSPQRr || i.opcode = .STDWSPQRr then
    decide (i.operandReg 0 = some Reg.SP) && (i.operandReg 2).isSome
  else true

/-- The push-converting `fixStackStores` loop equals the declarative
expansion on the instructions before the first call, and leaves the first
call and everything after it untouched. -/
theorem fixStackStores_push_spec (l : List MachineInstr)
    (hwf : ∀ i ∈ l.takeWhile (fun i => !i.opcode.isCall), storeWF i = true) :
    fixStackStores true l =
      some ((l.takeWhile fun i => !i.opcode.isCall).flatMap pushExpandSpec ++
        l.dropWhile fun i => !i.opcode.isCall) := by
  induction l with
  | nil => rfl
  | cons i rest ih =>
    by_cases hcall : i.opcode.isCall = true
    · rw [fixStackStores, if_pos hcall]
      rw [List.takeWhile_cons_of_neg (by simp [hcall]),
        List.dropWhile_cons_of_neg (by simp [hcall])]
      rfl
    · have hcall2 : (!i.opcode.isCall) = true := by simp [hcall]
      have htake : (i :: rest).takeWhile (fun i => !i.opcode.isCall) =
          i :: rest.takeWhile (fun i => !i.opcode.isCall) :=
        List.takeWhile_cons_of_pos hcall2
      have hdrop : (i :: rest).dropWhile (fun i => !i.opcode.isCall) =
          rest.dropWhile (fun i => !i.opcode.isCall) :=
        List.dropWhile_cons_of_pos hcall2
      have hwf_i : storeWF i = true := by
        apply hwf
        rw [htake]
        exact List.mem_cons_self i _
      have hwf_rest : ∀ j ∈ rest.takeWhile (fun i => !i.opcode.isCall),
          storeWF j = true := by
        intro j hj
        apply hwf
        rw [htake]
        exact List.mem_cons_of_mem i hj
      have hrec := ih hwf_rest
      rw [htake, hdrop, List.flatMap_cons]
      by_cases hstd : i.opcode = .STDSPQRr ∨ i.opcode = .STDWSPQRr
      · have hsp : i.operandReg 0 = some Reg.SP := by
          unfold storeWF at hwf_i
          rw [if_pos (by rcases hstd with h | h <;> simp [h])] at hwf_i
          exact decide_eq_true_eq.mp (Bool.and_eq_true_iff.mp hwf_i).1
        obtain ⟨src, hsrc⟩ : ∃ src, i.operandReg 2 = some src := by
          unfold storeWF at hwf_i
          rw [if_pos (by rcases hstd with h | h <;> simp [h])] at hwf_i
          exact Option.isSome_iff_exists.mp (Bool.and_eq_true_iff.mp hwf_i).2
        rcases hstd with h | h
        · rw [fixStackStores, if_neg (by simp [hcall]),
            if_neg (by simp [h]), if_neg (by simp [hsp]), if_pos rfl, hsrc]
          rw [hrec]
          rw [pushExpandSpec, if_neg (by simp [h]), if_pos h, hsrc]
          simp [h]
        · rw [fixStackStores, if_neg (by simp [hcall]),
            if_neg (by simp [h]), if_neg (by simp [hsp]), if_pos rfl, hsrc]
          rw [hrec]
          rw [pushExpandSpec, if_pos h, hsrc]
          simp [h]
      · push_neg at hstd
        rw [fixStackStores, if_neg (by simp [hcall]),
          if_pos (by simp [hstd.1, hstd.2])]
        rw [hrec]
        rw [pushExpandSpec, if_neg hstd.2, if_neg hstd.1]
        simp

/-- C7: eliminating a setup marker with non-zero amount under the
non-reserved policy replaces every stack-store placeholder before the first
call by pushes (a two-byte placeholder by two single-byte pushes, high byte
first), deletes the marker, and leaves the first call and everything at or
beyond it untouched. -/
theorem claim_C7 (MF : MachineFunction) (pre suf : List MachineInstr)
    (mi : MachineInstr) (amount : Int)
    (hres : hasReservedCallFrame MF = false)
    (hop : mi.opcode = callFrameSetupOpcode)
    (hamt : mi.operandImm 0 = some amount) (hnz : amount ≠ 0)
    (hwf : ∀ i ∈ suf.takeWhile (fun i => !i.opcode.isCall), storeWF i = true) :
    eliminateCallFramePseudoInstr 1 MF pre mi suf =
      some (pre ++
        ((suf.takeWhile fun i => !i.opcode.isCall).flatMap pushExpandSpec ++
          suf.dropWhile fun i => !i.opcode.isCall)) ∧
    (∀ i : MachineInstr, ∀ src : Reg, i.opcode = .STDWSPQRr →
      i.operandReg 2 = some src →
      pushExpandSpec i =
        [mkI .PUSHRr [.reg src.subHi false (i.operandIsKill 2) false],
         mkI .PUSHRr [.reg src.subLo false (i.operandIsKill 2) false]]) ∧
    (∀ i : MachineInstr, ∀ src : Reg, i.opcode = .STDSPQRr →
      i.operandReg 2 = some src →
      pushExpandSpec i = [mkI .PUSHRr [.reg src false (i.operandIsKill 2) false]]) ∧
    (∀ i : MachineInstr, i.opcode ≠ .STDSPQRr → i.opcode ≠ .STDWSPQRr →
      pushExpandSpec i = [i]) := by
  refine ⟨?_, ?_, ?_, ?_⟩
  · have hfix := fixStackStores_push_spec suf hwf
    have hstep : fixStackStores true (mi :: suf) =
        some (mi :: ((suf.takeWhile fun i => !i.opcode.isCall).flatMap
          pushExpandSpec ++ suf.dropWhile fun i => !i.opcode.isCall)) := by
      rw [fixStackStores, if_neg (by rw [hop]; simp [callFrameSetupOpcode,
        Opcode.isCall]), if_pos (by rw [hop]; simp [callFrameSetupOpcode]), hfix]
    unfold eliminateCallFramePseudoInstr
    rw [hres]
    simp only [Bool.false_eq_true, if_false]
    rw [hamt]
    simp only
    rw [if_pos hnz, if_neg (by simp), if_pos hop, hstep]
    simp
  · intro i src hw hsrc
    rw [pushExpandSpec, if_pos hw, hsrc]
  · intro i src hs hsrc
    rw [pushExpandSpec, if_neg (by simp [hs]), if_pos hs, hsrc]
  · intro i h1 h2
    rw [pushExpandSpec, if_neg h2, if_neg h1]

/-- Function with the non-reserved call-frame policy (all flags false). -/
def MFc7 : MachineFunction :=
  ⟨.C, ⟨0, 0, false, [], []⟩, ⟨false, false, false, 0⟩⟩

/-- One-byte stack-store placeholder used by the C7 witness. -/
def stC7 : MachineInstr := mkI .STDSPQRr [useReg .SP, .imm 1, useKill (.gpr 22)]

/-- Two-byte stack-store placeholder used by the C7 witness. -/
def stwC7 : MachineInstr :=
  mkI .STDWSPQRr [useReg .SP, .imm 2, .reg (.pr 25 24) false true false]

/-- The call instruction bounding the C7 witness scan. -/
def callC7 : MachineInstr := mkI .CALLk []

/-- The setup marker eliminated in the C7 witness. -/
def miC7 : MachineInstr := mkI .ADJCALLSTACKDOWN [.imm 3]

/-- Witness for C7: the marker disappears, both placeholders become pushes
(high byte first for the two-byte one), and the placeholder after the call
is untouched. -/
theorem claim_C7_witness :
    hasReservedCallFrame MFc7 = false ∧
    miC7.opcode = callFrameSetupOpcode ∧
    miC7.operandImm 0 = some 3 ∧
    eliminateCallFramePseudoInstr 1 MFc7 [] miC7 [stC7, stwC7, callC7, stC7] =
      some [mkI .PUSHRr [.reg (.gpr 22) false true false],
        mkI .PUSHRr [.reg (.gpr 25) false true false],
        mkI .PUSHRr [.reg (.gpr 24) false true false],
        callC7, stC7] := by
  have h := claim_C7 MFc7 [] [stC7, stwC7, callC7, stC7] miC7 3 rfl rfl rfl
    (by decide) (by decide)
  refine ⟨rfl, rfl, rfl, ?_⟩
  rw [h.1]
  decide

/-- Function needing no epilogue code: all flags false, normal convention. -/
def MFc8 : MachineFunction :=
  ⟨.C, ⟨0, 0, false, [], []⟩, ⟨false, false, false, 0⟩⟩

/-- Block whose last (and only) instruction is a branch, not a return. -/
def bbC8 : MachineBasicBlock := ⟨[], [mkI .RJMPk []]⟩

/-- Counterexample to C8 as stated: invoked on a block whose last non-debug
instruction is not a return, the epilogue emitter does not assert when the
function needs no epilogue code — it returns with the block untouched. -/
theorem claim_C8_counterexample :
    (splitLastNonDebug bbC8.instrs).map (fun p => p.2.1.opcode.isReturn) =
      some false ∧
    emitEpilogue MFc8 bbC8 = some bbC8 := by decide

/-- C8 amended: the epilogue emitter asserts on a block whose last non-debug
instruction is not a return whenever the function needs epilogue code
(`hasFP` or a handler convention) — otherwise it returns before the check;
and the nonzero-amount call-frame elimination path under the non-reserved
policy asserts when the stack alignment differs from the one byte the
constructor installs. -/
theorem claim_C8_amended (MF : MachineFunction) (bb : MachineBasicBlock)
    (pre post : List MachineInstr) (m : MachineInstr)
    (hneed : hasFP MF = true ∨ MF.callConv = .AVR_INTR ∨
      MF.callConv = .AVR_SIGNAL)
    (hsplit : splitLastNonDebug bb.instrs = some (pre, m, post))
    (hm : m.opcode.isReturn = false) :
    emitEpilogue MF bb = none ∧
    (∀ align : Nat, ∀ MF2 : MachineFunction, ∀ pre2 suf2 : List MachineInstr,
      ∀ mi : MachineInstr, ∀ amt : Int,
      hasReservedCallFrame MF2 = false → mi.operandImm 0 = some amt →
      amt ≠ 0 → align ≠ 1 →
      eliminateCallFramePseudoInstr align MF2 pre2 mi suf2 = none) ∧
    mkAVRFrameLowering.stackAlignment = 1 := by
  refine ⟨?_, ?_, rfl⟩
  · rcases hneed with h | h | h
    · simp [emitEpilogue, h, hsplit, hm]
    · simp [emitEpilogue, h, hsplit, hm]
    · simp [emitEpilogue, h, hsplit, hm]
  · intro align MF2 pre2 suf2 mi amt hres hamt hnz halign
    unfold eliminateCallFramePseudoInstr
    rw [hres]
    simp only [Bool.false_eq_true, if_false]
    rw [hamt]
    simp only
    rw [if_pos hnz, if_pos halign]

/-- Interrupt handler used to exercise the amended C8 epilogue assertion. -/
def MFc8a : MachineFunction :=
  ⟨.AVR_INTR, ⟨0, 0, false, [], []⟩, ⟨false, false, false, 0⟩⟩

/-- The non-reserved-policy function given to the amended C8 eliminator. -/
def MFc8n : MachineFunction :=
  ⟨.C, ⟨0, 0, false, [], []⟩, ⟨false, false, false, 0⟩⟩

/-- The marker given to the amended C8 eliminator. -/
def miC8 : MachineInstr := mkI .ADJCALLSTACKUP [.imm 4]

/-- Witness for the amended C8: a handler epilogue on a branch-terminated
block asserts, and a nonzero marker under stack alignment 2 asserts. -/
theorem claim_C8_witness :
    (hasFP MFc8a = true ∨ MFc8a.callConv = .AVR_INTR ∨
      MFc8a.callConv = .AVR_SIGNAL) ∧
    splitLastNonDebug bbC8.instrs = some ([], mkI .RJMPk [], []) ∧
    (mkI .RJMPk []).opcode.isReturn = false ∧
    emitEpilogue MFc8a bbC8 = none ∧
    eliminateCallFramePseudoInstr 2 MFc8n [] miC8 [] = none := by
  have h := claim_C8_amended MFc8a bbC8 [] [] (mkI .RJMPk [])
    (Or.inr (Or.inl rfl)) (by decide) (by decide)
  exact ⟨Or.inr (Or.inl rfl), by decide, by decide, h.1,
    h.2.1 2 MFc8n [] [] miC8 4 rfl rfl (by decide) (by decide)⟩

/-- The epilogue's backward scan over the inserted handler restore code
always stops at the SREG write: only the final zero-pair pop is skipped,
whatever precedes the restore sequence. -/
theorem backSkip_handler (pre : List MachineInstr) :
    backSkip (pre ++ [popSREGScratch, writeSREG, popZeroPair]) =
      (pre ++ [popSREGScratch, writeSREG], [popZeroPair]) := by
  induction pre with
  | nil => decide
  | cons x pre ih =>
    show backSkip (x :: (pre ++ [popSREGScratch, writeSREG, popZeroPair])) = _
    rw [backSkip, ih]
    simp

/-- Interrupt handler with `hasFP` true (a spill present) and frame size 1. -/
def MFc5 : MachineFunction :=
  ⟨.AVR_INTR, ⟨1, 0, false, [], []⟩, ⟨true, false, false, 0⟩⟩

/-- The `RETI` return of the C5 counterexample block. -/
def retiC5 : MachineInstr := mkI .RETI []

/-- The C5 counterexample block: just the return. -/
def bbC5 : MachineBasicBlock := ⟨[], [retiC5]⟩

/-- Counterexample to C5 as stated: on an interrupt handler with a non-zero
frame size, the epilogue interleaves the frame-pointer restore between the
SREG write and the zero-pair pop, so the three-instruction restore sequence
is not contiguous immediately before the return. -/
theorem claim_C5_counterexample :
    MFc5.callConv = .AVR_INTR ∧
    emitEpilogue MFc5 bbC5 =
      some ⟨[], [popSREGScratch, writeSREG, epilogueAdjust 1, epilogueSPWrite,
        popZeroPair, retiC5]⟩ ∧
    ¬ ∃ l : List MachineInstr,
        (emitEpilogue MFc5 bbC5).map (fun b => b.instrs) =
          some (l ++ [popSREGScratch, writeSREG, popZeroPair, retiC5]) := by
  refine ⟨rfl, by decide, ?_⟩
  rintro ⟨l, hl⟩
  rw [show emitEpilogue MFc5 bbC5 = some ⟨[], [popSREGScratch, writeSREG,
    epilogueAdjust 1, epilogueSPWrite, popZeroPair, retiC5]⟩ from by decide] at hl
  simp only [Option.map_some', Option.some.injEq] at hl
  have hlen := congrArg List.length hl
  simp only [List.length_cons, List.length_nil, List.length_append] at hlen
  have hl2 : l.length = 2 := by omega
  have hdrop := congrArg (List.drop 2) hl
  rw [List.drop_left' hl2] at hdrop
  exact absurd hdrop (by decide)

/-- C5 amended: the handler prologue code (interrupt enable for interrupt
handlers, then zero-pair push, SREG read, SREG push) comes before all other
code, and nothing further is emitted when `hasFP` is false; the handler
epilogue restore sequence sits directly before the return when the frame
size is zero, while a non-zero frame size places the frame restore and the
stack-pointer write between the SREG write and the zero-pair pop (the
zero-pair pop stays immediately before the return). -/
theorem claim_C5_amended (MF : MachineFunction) (entry bb : MachineBasicBlock)
    (rest : List MachineBasicBlock) (pre : List MachineInstr)
    (ret : MachineInstr)
    (hcc : MF.callConv = .AVR_INTR ∨ MF.callConv = .AVR_SIGNAL)
    (hret : ret.opcode.isReturn = true) (hnd : ret.isDebugValue = false)
    (hbb : bb.instrs = pre ++ [ret]) :
    (∃ tail, (emitPrologue MF (entry :: rest)).head?.map (fun b => b.instrs) =
      some (handlerPrologue MF.callConv ++ tail)) ∧
    handlerPrologue MF.callConv =
      (if MF.callConv = .AVR_INTR then [interruptEnable] else []) ++
        [pushZeroPair, readSREG, pushSREGScratch] ∧
    (hasFP MF = false →
      emitPrologue MF (entry :: rest) =
        { entry with instrs := handlerPrologue MF.callConv ++ entry.instrs } :: rest) ∧
    (usub32 MF.frameInfo.stackSize MF.funcInfo.calleeSavedFrameSize = 0 →
      emitEpilogue MF bb =
        some ⟨bb.liveIns, pre ++ [popSREGScratch, writeSREG, popZeroPair, ret]⟩) ∧
    (usub32 MF.frameInfo.stackSize MF.funcInfo.calleeSavedFrameSize ≠ 0 →
      emitEpilogue MF bb =
        some ⟨bb.liveIns, pre ++ [popSREGScratch, writeSREG,
          epilogueAdjust (usub32 MF.frameInfo.stackSize
            MF.funcInfo.calleeSavedFrameSize), epilogueSPWrite, popZeroPair,
          ret]⟩) := by
  refine ⟨?_, ?_, ?_, ?_, ?_⟩
  · by_cases hFP : hasFP MF = true
    · refine ⟨(spanPushes entry.instrs).1 ++ [spreadFP] ++
        (if usub32 MF.frameInfo.stackSize MF.funcInfo.calleeSavedFrameSize = 0
         then [] else [prologueAdjust (usub32 MF.frameInfo.stackSize
           MF.funcInfo.calleeSavedFrameSize), prologueSPWrite]) ++
        (spanPushes entry.instrs).2, ?_⟩
      simp [emitPrologue, hFP]
    · rw [Bool.not_eq_true] at hFP
      exact ⟨entry.instrs, by simp [emitPrologue, hFP]⟩
  · rcases hcc with h | h <;> simp [handlerPrologue, h]
  · intro hFP
    simp [emitPrologue, hFP]
  · intro hfs
    rcases hcc with h | h <;>
      simp [emitEpilogue, h, hbb, splitLastNonDebug_append pre ret hnd, hret, hfs]
  · intro hfs
    rcases hcc with h | h <;>
    · simp only [emitEpilogue, h, hbb, splitLastNonDebug_append pre ret hnd, hret]
      simp only [hfs, if_false]
      rw [show ([popSREGScratch, writeSREG, popZeroPair] : List MachineInstr) =
        [popSREGScratch, writeSREG, popZeroPair] from rfl]
      simp [backSkip_handler pre, hfs]

/-- Interrupt handler with no locals for the C5 amended witness. -/
def MFc5w : MachineFunction :=
  ⟨.AVR_INTR, ⟨0, 0, false, [], []⟩, ⟨false, false, false, 0⟩⟩

/-- The `RETI` return of the C5 amended witness block. -/
def retiC5w : MachineInstr := mkI .RETI []

/-- Witness for the amended C5: an interrupt handler with zero frame size
gets the full prologue save code first and the contiguous epilogue restore
sequence directly before the return. -/
theorem claim_C5_witness :
    (MFc5w.callConv = .AVR_INTR ∨ MFc5w.callConv = .AVR_SIGNAL) ∧
    retiC5w.opcode.isReturn = true ∧
    hasFP MFc5w = false ∧
    emitPrologue MFc5w [⟨[], []⟩] =
      [⟨[], [interruptEnable, pushZeroPair, readSREG, pushSREGScratch]⟩] ∧
    emitEpilogue MFc5w ⟨[], [retiC5w]⟩ =
      some ⟨[], [popSREGScratch, writeSREG, popZeroPair, retiC5w]⟩ := by
  have h := claim_C5_amended MFc5w ⟨[], []⟩ ⟨[], [retiC5w]⟩ [] [] retiC5w
    (Or.inl rfl) (by decide) (by decide) rfl
  refine ⟨Or.inl rfl, by decide, rfl, ?_, ?_⟩
  · rw [h.2.2.1 rfl]
    decide
  · rw [h.2.2.2.1 rfl]
    decide

end AVRFrame
